import Mathlib

/-!
Verification of the nc150 test-file generator (`generate_tests.py`) and the
`has_duplicate` solution (`src/arrays/has_duplicate.py`).

Python strings are modelled as `List Char` (`Str`); the filesystem is a finite
association list from path to file content.  The embedding targets the POSIX
platform the program runs on, so `os.sep = '/'` and the final
`.replace(os.sep, "/")` normalisation in the two enumerations is the identity
and is omitted.  `os.walk(root)` over a filesystem of regular files enumerates
exactly the files whose path extends `root ++ "/"`, with
`os.path.relpath(os.path.join(dirpath, filename), root)` giving the path with
that prefix removed; directories are implicit.  Dynamic loading
(`importlib.util`) is modelled by an environment mapping each solution
identifier to the outcome of executing its source file: either a raised
exception or the set of attribute names defined by the module.
-/

namespace NC150

/-- Python `str`, modelled as its list of characters. -/
abbrev Str := List Char

/-- Worker for `replaceAll`: scan left to right; `skip` counts characters of a
just-matched pattern occurrence that still have to be consumed. -/
def replGo (pat rep : Str) (skip : Nat) : Str → Str
  | [] => []
  | c :: rest =>
    match skip with
    | k + 1 => replGo pat rep k rest
    | 0 =>
      if pat ≠ [] ∧ pat.isPrefixOf (c :: rest) then
        rep ++ replGo pat rep (pat.length - 1) rest
      else
        c :: replGo pat rep 0 rest

/-- Python `s.replace(pat, rep)`: replaces every occurrence of `pat` in `s`,
left to right, non-overlapping. -/
def replaceAll (pat rep s : Str) : Str := replGo pat rep 0 s

/-- Whether `pat` occurs as a contiguous substring of `s`
(Python `pat in s`). -/
def hasSub (pat : Str) : Str → Bool
  | [] => pat.isEmpty
  | c :: rest => pat.isPrefixOf (c :: rest) || hasSub pat rest

/-- Python `os.path.basename`: everything after the last slash. -/
def baseName (p : Str) : Str := (p.reverse.takeWhile fun c => c != '/').reverse

/-- Python `os.path.dirname`: everything before the last slash
(empty when there is no slash). -/
def dirName (p : Str) : Str :=
  ((p.reverse.dropWhile fun c => c != '/').drop 1).reverse

/-- Python `os.path.join(a, b)` on POSIX (for the non-degenerate arguments the
program produces): an absolute `b` wins, otherwise the parts are glued with a
single separator. -/
def pyJoin (a b : Str) : Str :=
  if b.head? = some '/' then b
  else if a = [] ∨ a.getLast? = some '/' then a ++ b
  else a ++ '/' :: b

/-- The filesystem: a finite list of (path, content) pairs of regular files. -/
structure FS where
  files : List (Str × Str)
deriving DecidableEq

/-- Python `os.path.exists`. -/
def FS.existsFile (fs : FS) (p : Str) : Bool := fs.files.any fun e => e.1 == p

/-- Content of the file at `p`, if present. -/
def FS.lookup (fs : FS) (p : Str) : Option Str :=
  (fs.files.find? fun e => e.1 == p).map fun e => e.2

/-- Python `open(p, "w").write(c)`: overwrite in place, or create. -/
def FS.write (fs : FS) (p c : Str) : FS :=
  if fs.existsFile p then ⟨fs.files.map fun e => if e.1 == p then (p, c) else e⟩
  else ⟨fs.files ++ [(p, c)]⟩

/-- Python `os.remove`. -/
def FS.remove (fs : FS) (p : Str) : FS := ⟨fs.files.filter fun e => !(e.1 == p)⟩

/-- The solutions root prefix `"src/"`. -/
def srcRoot : Str := "src/".toList

/-- The tests root prefix `"tests/"`. -/
def testsRoot : Str := "tests/".toList

/-- The file extension `".py"`. -/
def pyExt : Str := ".py".toList

/-- The test filename convention token `"test_"`. -/
def testTok : Str := "test_".toList

/-- The excluded package marker filename `"__init__.py"`. -/
def initMarker : Str := "__init__.py".toList

/-- Loop body of `get_src_files` for one walked file: keep it when it lies
under `src/`, its filename ends with `.py` and is not `__init__.py`, and map
it to `rel_path.replace(".py", "")` (note: *every* occurrence of `".py"` in
the relative path is removed, not only the extension). -/
def srcEntryId (e : Str × Str) : Option Str :=
  if srcRoot.isPrefixOf e.1 then
    let rel := e.1.drop srcRoot.length
    let filename := baseName rel
    if pyExt.isSuffixOf filename ∧ filename ≠ initMarker then
      some (replaceAll pyExt [] rel)
    else none
  else none

/-- `get_src_files` (`generate_tests.py` lines 7-20). -/
def get_src_files (fs : FS) : List Str := fs.files.filterMap srcEntryId

/-- Loop body of `get_test_files` for one walked file: keep it when it lies
under `tests/`, its filename starts with `test_` and ends with `.py`, and map
it to `rel_path.replace(".py", "").replace("test_", "")` (again removing
*every* occurrence of both tokens anywhere in the relative path). -/
def testEntryId (e : Str × Str) : Option Str :=
  if testsRoot.isPrefixOf e.1 then
    let rel := e.1.drop testsRoot.length
    let filename := baseName rel
    if testTok.isPrefixOf filename ∧ pyExt.isSuffixOf filename then
      some (replaceAll testTok [] (replaceAll pyExt [] rel))
    else none
  else none

/-- `get_test_files` (lines 22-35). -/
def get_test_files (fs : FS) : List Str := fs.files.filterMap testEntryId

/-- Outcome of executing a candidate source file in a fresh module:
either a raised exception (syntax error, import error, load-time exception) or
the list of attribute names the loaded module defines. -/
inductive LoadResult where
  | err
  | ok (attrs : List Str)
deriving DecidableEq

/-- The dynamic-loading environment: what `spec.loader.exec_module` does for
the source file of each solution identifier. -/
structure Env where
  load : Str → LoadResult

/-- `os.path.join("src", f"{src_path}.py")` (line 44). -/
def srcFilePath (src_path : Str) : Str := pyJoin "src".toList (src_path ++ pyExt)

/-- `validate_function` (lines 37-59): `False` when the source file is missing
(without loading); otherwise load the module, catching any raised exception as
`False`, and check `hasattr(module, function_name)`. -/
def validate_function (fs : FS) (env : Env) (src_path function_name : Str) : Bool :=
  if !(fs.existsFile (srcFilePath src_path)) then false
  else
    match env.load src_path with
    | .err => false
    | .ok attrs => attrs.contains function_name

/-- `validate_function` with exception propagation made explicit: `.error`
would be an exception escaping to the caller, `.ok` a normal return.  The
`try`/`except Exception` around `exec_module`/`hasattr` maps the raised case
to a normal `.ok false` return; the spec/module construction before the `try`
(`spec_from_file_location`, `module_from_spec`) performs no file I/O and no
execution for a path ending in `.py`, so it has no raising case. -/
def validate_result (fs : FS) (env : Env) (src_path function_name : Str) :
    Except Str Bool :=
  if !(fs.existsFile (srcFilePath src_path)) then .ok false
  else
    match env.load src_path with
    | .err => .ok false
    | .ok attrs => .ok (attrs.contains function_name)

mutual
/-- A Python value embeddable in generated source text (the closed set the
spec table uses: ints, bools and their nested lists). -/
inductive Value where
  | int (n : Int)
  | bool (b : Bool)
  | list (vs : ValueList)
deriving DecidableEq
/-- A Python list of `Value`s. -/
inductive ValueList where
  | nil
  | cons (v : Value) (vs : ValueList)
deriving DecidableEq
end

mutual
/-- Python `repr` on the supported value shapes. -/
def pyRepr : Value → Str
  | .int n => (toString n).toList
  | .bool true => "True".toList
  | .bool false => "False".toList
  | .list vs => '[' :: pyReprElems vs ++ [']']
/-- `repr` of the comma-separated elements of a list value. -/
def pyReprElems : ValueList → Str
  | .nil => []
  | .cons v .nil => pyRepr v
  | .cons v (.cons w vs) => pyRepr v ++ ", ".toList ++ pyReprElems (.cons w vs)
end

/-- One test case of the spec table: named input arguments (an insertion-ordered
dict) and the expected output. -/
structure TestCase where
  input : List (Str × Value)
  output : Value
deriving DecidableEq

/-- One entry of `test_specifications`. -/
structure TSpec where
  function_name : Str
  test_cases : List TestCase
deriving DecidableEq

/-- `", ".join(f"{k}={repr(v)}" for k, v in case['input'].items())` (line 88). -/
def argsRender : List (Str × Value) → Str
  | [] => []
  | [(k, v)] => k ++ '=' :: pyRepr v
  | (k, v) :: e :: rest => k ++ '=' :: pyRepr v ++ ", ".toList ++ argsRender (e :: rest)

/-- The two lines appended for case number `i` (lines 90-91). -/
def caseBlock (function_name : Str) (i : Nat) (c : TestCase) : Str :=
  "def test_case_".toList ++ (toString i).toList ++ "():\n".toList
    ++ "    assert ".toList ++ function_name ++ '(' :: argsRender c.input
    ++ ") == ".toList ++ pyRepr c.output ++ "\n\n".toList

/-- The full rendered test-file content (lines 84-92): the import line built
from `"src." + src_path.replace("/", ".")`, a blank line, then one block per
case in original order. -/
def renderContent (src_path function_name : Str) (test_cases : List TestCase) : Str :=
  "from src.".toList ++ replaceAll ['/'] ['.'] src_path ++ " import ".toList
    ++ function_name ++ "\n\n".toList
    ++ (test_cases.enum.map fun e => caseBlock function_name e.1 e.2).flatten

/-- The reported outcome of `generate_test_file`: the skip return (line 73),
the validation-failure return (line 79), or the final print of `"Generated"` /
`"Regenerated"` (line 96). -/
inductive GenOutcome where
  | skipped
  | invalid
  | generated
  | regenerated
deriving DecidableEq

/-- The target path `os.path.join(os.path.join("tests", os.path.dirname(p)),
f"test_{os.path.basename(p)}.py")` (lines 67-69). -/
def testPathOf (src_path : Str) : Str :=
  pyJoin (pyJoin "tests".toList (dirName src_path)) (testTok ++ baseName src_path ++ pyExt)

/-- `generate_test_file` (lines 61-96).  The existence/force skip check runs
first; validation runs only after it; `os.makedirs(..., exist_ok=True)` is
implicit in the filesystem model.  The `Regenerated`-vs-`Generated` label
tests `os.path.exists(test_filepath)` *after* the file was written, exactly as
the source does on line 96. -/
def generate_test_file (fs : FS) (env : Env) (src_path : Str) (specs : TSpec)
    (force : Bool) : FS × GenOutcome :=
  let test_filepath := testPathOf src_path
  if fs.existsFile test_filepath ∧ ¬force then (fs, .skipped)
  else if !(validate_function fs env src_path specs.function_name) then (fs, .invalid)
  else
    let content := renderContent src_path specs.function_name specs.test_cases
    let fs2 := fs.write test_filepath content
    (fs2, if force ∧ fs2.existsFile test_filepath then .regenerated else .generated)

/-- `clean_orphaned_tests` (lines 98-113): enumerate test identifiers once,
then for every identifier with no matching solution remove
`os.path.join("tests", f"{test_path}.py")` if that path exists, recording the
removal (the printed removal notice). -/
def clean_orphaned_tests (fs : FS) (src_files : List Str) : FS × List Str :=
  let test_files := get_test_files fs
  test_files.foldl
    (fun acc test_path =>
      if test_path ∈ src_files then acc
      else
        let test_filepath := pyJoin "tests".toList (test_path ++ pyExt)
        if acc.1.existsFile test_filepath then
          (acc.1.remove test_filepath, acc.2 ++ [test_filepath])
        else acc)
    (fs, [])

/-- The observable result of one run of `main`: the final filesystem, the
paths the sweep reported as removed, and the per-solution generation
outcomes. -/
structure RunResult where
  fs : FS
  removed : List Str
  outcomes : List (Str × GenOutcome)
deriving DecidableEq

/-- Membership lookup in the compiled-in `test_specifications` dict. -/
def lookupSpec (table : List (Str × TSpec)) (s : Str) : Option TSpec :=
  (table.find? fun e => e.1 == s).map fun e => e.2

/-- `main` (lines 115-138): enumerate solutions, sweep orphans, then generate
for every solution identifier that has a spec entry.  The `verbose` flag only
adds diagnostics and is not modelled. -/
def main (fs0 : FS) (env : Env) (table : List (Str × TSpec)) (force : Bool) :
    RunResult :=
  let src_files := get_src_files fs0
  let cleaned := clean_orphaned_tests fs0 src_files
  let gen := src_files.foldl
    (fun acc src_path =>
      match lookupSpec table src_path with
      | some specs =>
        let r := generate_test_file acc.1 env src_path specs force
        (r.1, acc.2 ++ [(src_path, r.2)])
      | none => acc)
    (cleaned.1, ([] : List (Str × GenOutcome)))
  ⟨gen.1, cleaned.2, gen.2⟩

/-- Loop of `has_duplicate` (`src/arrays/has_duplicate.py`): `s` is the set of
values already seen. -/
def hdGo (s : List Int) : List Int → Bool
  | [] => false
  | i :: rest => if i ∈ s then true else hdGo (i :: s) rest

/-- `has_duplicate(nums)`: walk the list with an initially empty seen-set. -/
def has_duplicate (nums : List Int) : Bool := hdGo [] nums

/-! ### Helper lemmas about the filesystem model -/

theorem find?_overwrite (p c : Str) (l : List (Str × Str))
    (h : (l.any fun e => e.1 == p) = true) :
    ((l.map fun e => if e.1 == p then (p, c) else e).find? fun e => e.1 == p)
      = some (p, c) := by
  induction l with
  | nil => simp at h
  | cons e l ih =>
    rw [List.map_cons]
    by_cases he : (e.1 == p) = true
    · rw [if_pos he]
      rw [List.find?_cons_of_pos]
      simp
    · rw [if_neg he]
      rw [List.find?_cons_of_neg]
      · apply ih
        have h3 := h
        rw [List.any_cons] at h3
        cases hx : (l.any fun e => e.1 == p) with
        | true => rfl
        | false =>
          rw [hx] at h3
          cases hy : (e.1 == p) with
          | true => exact absurd hy he
          | false => rw [hy] at h3; exact absurd h3 (by decide)
      · exact he

theorem find?_append_fresh (p c : Str) (l : List (Str × Str))
    (h : (l.any fun e => e.1 == p) = false) :
    ((l ++ [(p, c)]).find? fun e => e.1 == p) = some (p, c) := by
  induction l with
  | nil =>
    rw [List.nil_append]
    rw [List.find?_cons_of_pos]
    simp
  | cons e l ih =>
    rw [List.any_cons, Bool.or_eq_false_iff] at h
    rw [List.cons_append]
    rw [List.find?_cons_of_neg]
    · exact ih h.2
    · intro hc
      rw [h.1] at hc
      exact absurd hc (by decide)

theorem lookup_write_self (fs : FS) (p c : Str) : (fs.write p c).lookup p = some c := by
  unfold FS.write FS.lookup
  split
  · next h =>
    dsimp only
    have h2 : (fs.files.any fun e => e.1 == p) = true := h
    rw [find?_overwrite p c fs.files h2]
    rfl
  · next h =>
    dsimp only
    have h2 : (fs.files.any fun e => e.1 == p) = false := by
      cases hx : (fs.files.any fun e => e.1 == p) with
      | false => rfl
      | true => exact absurd hx h
    rw [find?_append_fresh p c fs.files h2]
    rfl

/-! ### Claim theorems (with their witnesses and counterexamples) -/

/-- Claim C1 (code bug): at the spec scenario input — `has_duplicate`'s source
deleted, its previously generated test file `tests/arrays/test_has_duplicate.py`
present — the next run reports no removal and leaves the orphaned generated
test file in place: `clean_orphaned_tests` rebuilds the removal path without
the `test_` filename prefix (`tests/arrays/has_duplicate.py`), finds nothing
there, and deletes nothing, contradicting the claim (and the function's own
docstring). -/
theorem c1_orphan_survives_run :
    (main ⟨[("tests/arrays/test_has_duplicate.py".toList, "x".toList)]⟩
        ⟨fun _ => LoadResult.err⟩ [] false).removed = []
    ∧ (main ⟨[("tests/arrays/test_has_duplicate.py".toList, "x".toList)]⟩
        ⟨fun _ => LoadResult.err⟩ [] false).fs.existsFile
        "tests/arrays/test_has_duplicate.py".toList = true := by
  constructor
  · decide
  · decide

/-- Claim C2, counterexample: for the solution `src/test_utils/foo.py` (a
directory name containing the substring `test_`) the solutions enumeration
yields identifier `test_utils/foo` while the tests enumeration of its
generated test file `tests/test_utils/test_foo.py` yields `utils/foo` —
`str.replace` removes every occurrence of the tokens, not only the leading
`test_` filename prefix, so the two identifiers differ. -/
theorem c2_counterexample :
    get_src_files ⟨[("src/test_utils/foo.py".toList, []),
        ("tests/test_utils/test_foo.py".toList, [])]⟩ = ["test_utils/foo".toList]
    ∧ get_test_files ⟨[("src/test_utils/foo.py".toList, []),
        ("tests/test_utils/test_foo.py".toList, [])]⟩ = ["utils/foo".toList]
    ∧ "test_utils/foo".toList ≠ "utils/foo".toList := by
  refine ⟨by decide, by decide, by decide⟩

/-- Claim C3 (code bug): a forced run on a target that did not previously
exist reports `Regenerated`, not `Generated`: the label's
`os.path.exists(test_filepath)` test runs after the file has been written and
is therefore always true, so with `force` set the report is always
`Regenerated`. -/
theorem c3_forced_fresh_reports_regenerated :
    (FS.existsFile ⟨[("src/m/p.py".toList, [])]⟩ (testPathOf "m/p".toList)) = false
    ∧ (generate_test_file ⟨[("src/m/p.py".toList, [])]⟩ ⟨fun _ => LoadResult.ok ["f".toList]⟩
        "m/p".toList ⟨"f".toList, []⟩ true).2 = GenOutcome.regenerated := by
  refine ⟨by decide, by decide⟩

/-- Claim C4, counterexample: with the target test file already existing and
`force` unset, `generate_test_file` returns the skip outcome without
performing validation — here validation would fail (the loader raises), yet
the outcome is `skipped`, not the validation-failure report, and the result is
identical for a loader that would succeed. -/
theorem c4_counterexample :
    validate_function ⟨[("tests/m/test_p.py".toList, "x".toList), ("src/m/p.py".toList, [])]⟩
        ⟨fun _ => LoadResult.err⟩ "m/p".toList "f".toList = false
    ∧ (generate_test_file ⟨[("tests/m/test_p.py".toList, "x".toList), ("src/m/p.py".toList, [])]⟩
        ⟨fun _ => LoadResult.err⟩ "m/p".toList ⟨"f".toList, []⟩ false).2 = GenOutcome.skipped
    ∧ (generate_test_file ⟨[("tests/m/test_p.py".toList, "x".toList), ("src/m/p.py".toList, [])]⟩
        ⟨fun _ => LoadResult.ok ["f".toList]⟩ "m/p".toList ⟨"f".toList, []⟩ false).2
        = GenOutcome.skipped := by
  refine ⟨by decide, by decide, by decide⟩

/-- Claim C4 as amended: the orchestrator applies the existence/force skip
check first; only when that check does not skip (target missing or force set)
is the entry point validated, and on validation failure nothing is written and
the item is reported as invalid. -/
theorem c4_skip_check_precedes_validation (fs : FS) (env : Env) (s : Str)
    (sp : TSpec) (force : Bool) :
    (fs.existsFile (testPathOf s) = true → force = false →
      generate_test_file fs env s sp force = (fs, GenOutcome.skipped))
    ∧ (¬(fs.existsFile (testPathOf s) = true ∧ force = false) →
      validate_function fs env s sp.function_name = false →
      generate_test_file fs env s sp force = (fs, GenOutcome.invalid)) := by
  constructor
  · intro h1 h2
    simp [generate_test_file, h1, h2]
  · intro h1 h2
    cases hforce : force with
    | true => simp [generate_test_file, h2]
    | false =>
      have hex : fs.existsFile (testPathOf s) = false := by
        cases hx : fs.existsFile (testPathOf s) with
        | false => rfl
        | true => exact absurd ⟨hx, rfl⟩ (hforce ▸ h1)
      simp [generate_test_file, h2, hex]

/-- Witness for C4: a concrete existing target with force unset is skipped. -/
theorem c4_witness :
    generate_test_file ⟨[("tests/m/test_p.py".toList, "x".toList)]⟩
        ⟨fun _ => LoadResult.err⟩ "m/p".toList ⟨"f".toList, []⟩ false
      = (⟨[("tests/m/test_p.py".toList, "x".toList)]⟩, GenOutcome.skipped) :=
  (c4_skip_check_precedes_validation ⟨[("tests/m/test_p.py".toList, "x".toList)]⟩
      ⟨fun _ => LoadResult.err⟩ "m/p".toList ⟨"f".toList, []⟩ false).1 (by decide) rfl

/-- Claim C5: `validate_function` never propagates an exception: the
instrumented `validate_result` always returns normally with the boolean
`validate_function` computes (the `try`/`except` maps every load failure to a
normal `False` return), and a missing source file yields `False` without
loading. -/
theorem c5_validate_never_raises (fs : FS) (env : Env) (src_path function_name : Str) :
    validate_result fs env src_path function_name
        = Except.ok (validate_function fs env src_path function_name)
    ∧ (fs.existsFile (srcFilePath src_path) = false →
      validate_function fs env src_path function_name = false) := by
  constructor
  · unfold validate_result validate_function
    by_cases h : fs.existsFile (srcFilePath src_path) = true
    · simp only [h]
      cases henv : env.load src_path <;> simp [henv]
    · have h2 : fs.existsFile (srcFilePath src_path) = false := by simpa using h
      simp [h2]
  · intro h
    unfold validate_function
    simp [h]

/-- Witness for C5: on an empty filesystem the source file is missing and
validation returns false normally. -/
theorem c5_witness :
    validate_function ⟨[]⟩ ⟨fun _ => LoadResult.err⟩ "a/b".toList "f".toList = false :=
  (c5_validate_never_raises ⟨[]⟩ ⟨fun _ => LoadResult.err⟩ "a/b".toList "f".toList).2
    (by decide)

/-- Claim C6 (code bug): a second run with `force` unset is not a filesystem
no-op.  Starting from `src/test_a/b.py` (with a valid spec entry) and a
pre-existing unrelated file `tests/a/b.py`, the first run generates
`tests/test_a/test_b.py`; the second run's sweep enumerates that generated
file, mangles its identifier to `a/b` (removing every `test_` substring),
finds no such solution, and deletes `tests/a/b.py` — a file the first run
never touched. -/
theorem c6_second_run_deletes_file :
    (main ⟨[("src/test_a/b.py".toList, []), ("tests/a/b.py".toList, "x".toList)]⟩
        ⟨fun s => if s = "test_a/b".toList then LoadResult.ok ["f".toList] else LoadResult.err⟩
        [("test_a/b".toList, ⟨"f".toList, []⟩)] false).fs.existsFile
        "tests/a/b.py".toList = true
    ∧ (main (main ⟨[("src/test_a/b.py".toList, []), ("tests/a/b.py".toList, "x".toList)]⟩
        ⟨fun s => if s = "test_a/b".toList then LoadResult.ok ["f".toList] else LoadResult.err⟩
        [("test_a/b".toList, ⟨"f".toList, []⟩)] false).fs
        ⟨fun s => if s = "test_a/b".toList then LoadResult.ok ["f".toList] else LoadResult.err⟩
        [("test_a/b".toList, ⟨"f".toList, []⟩)] false).fs.existsFile
        "tests/a/b.py".toList = false := by
  refine ⟨by decide, by decide⟩

/-- Claim C7: the rendered text written for a solution depends only on the
identifier, the entry-point name and the ordered test cases — whenever
`generate_test_file` writes (in any filesystem state, any environment, any
force flag), the bytes at the target are exactly
`renderContent src_path function_name test_cases`, hence byte-identical
across any two writing invocations with the same triple. -/
theorem c7_render_deterministic (fs : FS) (env : Env) (s : Str) (sp : TSpec)
    (force : Bool) (r : FS × GenOutcome)
    (h : generate_test_file fs env s sp force = r)
    (hw : r.2 = GenOutcome.generated ∨ r.2 = GenOutcome.regenerated) :
    r.1.lookup (testPathOf s) = some (renderContent s sp.function_name sp.test_cases) := by
  subst h
  cases hforce : force with
  | false =>
    rw [hforce] at hw
    cases hex : fs.existsFile (testPathOf s) with
    | true =>
      have hg : generate_test_file fs env s sp false = (fs, GenOutcome.skipped) := by
        simp [generate_test_file, hex]
      simp [hg] at hw
    | false =>
      cases hval : validate_function fs env s sp.function_name with
      | false =>
        have hg : generate_test_file fs env s sp false = (fs, GenOutcome.invalid) := by
          simp [generate_test_file, hex, hval]
        simp [hg] at hw
      | true =>
        simp only [generate_test_file]
        rw [if_neg (by simp [hex])]
        rw [if_neg (by rw [hval]; decide)]
        exact lookup_write_self fs (testPathOf s) (renderContent s sp.function_name sp.test_cases)
  | true =>
    rw [hforce] at hw
    cases hval : validate_function fs env s sp.function_name with
    | false =>
      have hg : generate_test_file fs env s sp true = (fs, GenOutcome.invalid) := by
        simp [generate_test_file, hval]
      simp [hg] at hw
    | true =>
      simp only [generate_test_file]
      rw [if_neg (by simp)]
      rw [if_neg (by rw [hval]; decide)]
      exact lookup_write_self fs (testPathOf s) (renderContent s sp.function_name sp.test_cases)

/-- Witness for C7: a concrete fresh generation writes exactly the rendered
content. -/
theorem c7_witness :
    (generate_test_file ⟨[("src/m/p.py".toList, [])]⟩ ⟨fun _ => LoadResult.ok ["f".toList]⟩
        "m/p".toList ⟨"f".toList, []⟩ false).1.lookup (testPathOf "m/p".toList)
      = some (renderContent "m/p".toList "f".toList []) :=
  c7_render_deterministic ⟨[("src/m/p.py".toList, [])]⟩ ⟨fun _ => LoadResult.ok ["f".toList]⟩
    "m/p".toList ⟨"f".toList, []⟩ false _ rfl (Or.inl (by decide))

/-- Claim C8 (code bug): a run can delete the existing test file of a solution
that has no spec entry.  With solution `src/a/b.py` absent from the spec table,
its test file `tests/a/test_b.py` present, and an unrelated test file
`tests/a/test_tetest_st_b.py` present, the sweep mangles the latter's
identifier to `a/test_b` (removing every `test_` substring left to right),
finds no matching solution, and removes `tests/a/test_b.py`. -/
theorem c8_sweep_deletes_unspecified_file :
    (FS.existsFile ⟨[("src/a/b.py".toList, []), ("tests/a/test_b.py".toList, "x".toList),
        ("tests/a/test_tetest_st_b.py".toList, "y".toList)]⟩ "tests/a/test_b.py".toList) = true
    ∧ get_src_files ⟨[("src/a/b.py".toList, []), ("tests/a/test_b.py".toList, "x".toList),
        ("tests/a/test_tetest_st_b.py".toList, "y".toList)]⟩ = ["a/b".toList]
    ∧ (main ⟨[("src/a/b.py".toList, []), ("tests/a/test_b.py".toList, "x".toList),
        ("tests/a/test_tetest_st_b.py".toList, "y".toList)]⟩ ⟨fun _ => LoadResult.err⟩
        [] false).fs.existsFile "tests/a/test_b.py".toList = false := by
  refine ⟨by decide, by decide, by decide⟩

/-- Claim C9: the spec scenario — solution `arrays/has_duplicate`, entry point
`has_duplicate`, one case with input `{nums: [1, 2, 3, 1]}` and expected
output `True` — renders exactly one import line, one blank line, and one test
function asserting `has_duplicate(nums=[1, 2, 3, 1]) == True`. -/
theorem c9_rendered_scenario :
    renderContent "arrays/has_duplicate".toList "has_duplicate".toList
        [⟨[("nums".toList, Value.list (.cons (.int 1) (.cons (.int 2)
            (.cons (.int 3) (.cons (.int 1) .nil)))))], Value.bool true⟩]
      = ("from src.arrays.has_duplicate import has_duplicate\n\n"
          ++ "def test_case_0():\n    assert has_duplicate(nums=[1, 2, 3, 1]) == True\n\n").toList := by
  decide

/-! ### String lemmas: occurrence-free replacement behaves like prefix/suffix stripping -/

theorem pyExt_chars : pyExt = ['.', 'p', 'y'] := rfl

theorem testTok_chars : testTok = ['t', 'e', 's', 't', '_'] := rfl

theorem srcRoot_chars : srcRoot = ['s', 'r', 'c', '/'] := rfl

theorem testsRoot_chars : testsRoot = ['t', 'e', 's', 't', 's', '/'] := rfl

theorem initMarker_split : initMarker = "__init__".toList ++ pyExt := rfl

theorem isPrefixOf_append_self (p s : Str) : p.isPrefixOf (p ++ s) = true := by
  induction p with
  | nil => simp
  | cons c cs ih => simp [List.isPrefixOf, ih]

theorem isPrefixOf_of_append_sep (p a b : Str) (sep : Char)
    (h : p.isPrefixOf (a ++ sep :: b) = true) : p.isPrefixOf a = true ∨ sep ∈ p := by
  induction p generalizing a with
  | nil => exact Or.inl List.isPrefixOf_nil_left
  | cons c cs ih =>
    cases a with
    | nil =>
      simp only [List.nil_append, List.isPrefixOf, Bool.and_eq_true, beq_iff_eq] at h
      exact Or.inr (List.mem_cons.mpr (Or.inl h.1.symm))
    | cons d a2 =>
      simp only [List.cons_append, List.isPrefixOf, Bool.and_eq_true, beq_iff_eq] at h
      rcases ih a2 h.2 with h5 | h5
      · refine Or.inl ?_
        simp only [List.isPrefixOf, Bool.and_eq_true, beq_iff_eq]
        exact ⟨h.1, h5⟩
      · exact Or.inr (List.mem_cons.mpr (Or.inr h5))

theorem hasSub_cons (p : Str) (c : Char) (rest : Str) :
    hasSub p (c :: rest) = (p.isPrefixOf (c :: rest) || hasSub p rest) := rfl

theorem hasSub_append_sep (p a b : Str) (sep : Char) (ha : hasSub p a = false)
    (hb : hasSub p b = false) (hs : sep ∉ p) : hasSub p (a ++ sep :: b) = false := by
  induction a with
  | nil =>
    rw [List.nil_append, hasSub_cons]
    have hp : p.isPrefixOf (sep :: b) = false := by
      cases p with
      | nil => simp [hasSub] at ha
      | cons c cs =>
        have hcs : (c == sep) = false := by
          cases hcc : c == sep with
          | false => rfl
          | true => exact absurd (List.mem_cons.mpr (Or.inl (beq_iff_eq.mp hcc).symm)) hs
        show ((c == sep) && List.isPrefixOf cs b) = false
        rw [hcs]
        rfl
    rw [hp, hb]
    rfl
  | cons d a2 ih =>
    rw [hasSub_cons] at ha
    have hsplit := Bool.or_eq_false_iff.mp ha
    rw [List.cons_append, hasSub_cons]
    have hp : p.isPrefixOf (d :: (a2 ++ sep :: b)) = false := by
      cases hq : p.isPrefixOf (d :: (a2 ++ sep :: b)) with
      | false => rfl
      | true =>
        rcases isPrefixOf_of_append_sep p (d :: a2) b sep
            (by rw [List.cons_append]; exact hq) with h5 | h5
        · exact absurd (hsplit.1.symm.trans h5) (by decide)
        · exact absurd h5 hs
    rw [hp, ih hsplit.2]
    rfl

theorem replGo_skip_drop (pat rep : Str) :
    ∀ (s : Str) (k : Nat), replGo pat rep k s = replGo pat rep 0 (s.drop k) := by
  intro s
  induction s with
  | nil => intro k; cases k <;> rfl
  | cons c rest ih =>
    intro k
    cases k with
    | zero => rfl
    | succ k2 =>
      rw [show replGo pat rep (k2 + 1) (c :: rest) = replGo pat rep k2 rest from rfl]
      rw [ih k2]
      rfl

theorem replaceAll_cons_pos (pat rep : Str) (c : Char) (rest : Str)
    (hne : pat ≠ []) (hp : pat.isPrefixOf (c :: rest) = true) :
    replaceAll pat rep (c :: rest)
      = rep ++ replaceAll pat rep ((c :: rest).drop pat.length) := by
  cases pat with
  | nil => exact absurd rfl hne
  | cons p ps =>
    unfold replaceAll
    simp only [replGo]
    rw [if_pos ⟨hne, hp⟩]
    rw [replGo_skip_drop]
    have h1 : (c :: rest).drop (p :: ps).length = rest.drop ps.length := rfl
    have h2 : (p :: ps).length - 1 = ps.length := rfl
    rw [h1, h2]

theorem replaceAll_cons_neg (pat rep : Str) (c : Char) (rest : Str)
    (hp : pat.isPrefixOf (c :: rest) = false) :
    replaceAll pat rep (c :: rest) = c :: replaceAll pat rep rest := by
  unfold replaceAll
  simp only [replGo]
  rw [if_neg (fun hc => absurd (hp ▸ hc.2) (by decide))]

theorem replaceAll_not_sub (pat rep s : Str) (h : hasSub pat s = false) :
    replaceAll pat rep s = s := by
  induction s with
  | nil => rfl
  | cons c rest ih =>
    rw [hasSub_cons] at h
    have hsplit := Bool.or_eq_false_iff.mp h
    rw [replaceAll_cons_neg pat rep c rest hsplit.1]
    rw [ih hsplit.2]

theorem replaceAll_strip_lead (pat rep s : Str) (hne : pat ≠ []) :
    replaceAll pat rep (pat ++ s) = rep ++ replaceAll pat rep s := by
  cases pat with
  | nil => exact absurd rfl hne
  | cons p ps =>
    rw [List.cons_append]
    rw [replaceAll_cons_pos (p :: ps) rep p (ps ++ s) hne (by
      rw [← List.cons_append]
      exact isPrefixOf_append_self (p :: ps) s)]
    congr 1
    rw [show (p :: (ps ++ s)).drop (p :: ps).length = (ps ++ s).drop ps.length from rfl]
    rw [List.drop_left]

theorem replaceAll_append_sep (pat rep a b : Str) (sep : Char)
    (ha : hasSub pat a = false) (hs : sep ∉ pat) (hne : pat ≠ []) :
    replaceAll pat rep (a ++ sep :: b) = a ++ sep :: replaceAll pat rep b := by
  induction a with
  | nil =>
    rw [List.nil_append, List.nil_append]
    have hp : pat.isPrefixOf (sep :: b) = false := by
      cases pat with
      | nil => exact absurd rfl hne
      | cons c cs =>
        have hcs : (c == sep) = false := by
          cases hcc : c == sep with
          | false => rfl
          | true => exact absurd (List.mem_cons.mpr (Or.inl (beq_iff_eq.mp hcc).symm)) hs
        show ((c == sep) && List.isPrefixOf cs b) = false
        rw [hcs]
        rfl
    rw [replaceAll_cons_neg pat rep sep b hp]
  | cons d a2 ih =>
    rw [hasSub_cons] at ha
    have hsplit := Bool.or_eq_false_iff.mp ha
    rw [List.cons_append]
    have hp : pat.isPrefixOf (d :: (a2 ++ sep :: b)) = false := by
      cases hq : pat.isPrefixOf (d :: (a2 ++ sep :: b)) with
      | false => rfl
      | true =>
        rcases isPrefixOf_of_append_sep pat (d :: a2) b sep
            (by rw [List.cons_append]; exact hq) with h5 | h5
        · exact absurd (hsplit.1.symm.trans h5) (by decide)
        · exact absurd h5 hs
    rw [replaceAll_cons_neg pat rep d (a2 ++ sep :: b) hp]
    rw [ih hsplit.2]
    rfl

theorem replaceAll_strip_ext (r : Str) (h : hasSub pyExt r = false) :
    replaceAll pyExt [] (r ++ pyExt) = r := by
  induction r with
  | nil =>
    rw [List.nil_append]
    have h1 := replaceAll_strip_lead pyExt [] [] (by rw [pyExt_chars]; decide)
    rw [List.append_nil] at h1
    rw [h1]
    rfl
  | cons c r2 ih =>
    rw [hasSub_cons] at h
    have hsplit := Bool.or_eq_false_iff.mp h
    have hp : pyExt.isPrefixOf (c :: (r2 ++ pyExt)) = false := by
      cases r2 with
      | nil =>
        have e1 : (('p' : Char) == '.') = false := by decide
        simp [pyExt_chars, List.isPrefixOf, e1]
      | cons d r3 =>
        cases r3 with
        | nil =>
          have e1 : (('y' : Char) == '.') = false := by decide
          simp [pyExt_chars, List.isPrefixOf, e1]
        | cons e r4 =>
          have heq : pyExt.isPrefixOf (c :: ((d :: e :: r4) ++ pyExt))
              = pyExt.isPrefixOf (c :: d :: e :: r4) := by
            simp [pyExt_chars, List.isPrefixOf]
          rw [heq]
          exact hsplit.1
    rw [List.cons_append]
    rw [replaceAll_cons_neg pyExt [] c (r2 ++ pyExt) hp]
    rw [ih hsplit.2]

theorem hasSub_ext_testTok_append (base : Str) (hb : hasSub pyExt base = false) :
    hasSub pyExt (testTok ++ base) = false := by
  rw [testTok_chars]
  rw [pyExt_chars] at hb ⊢
  have e1 : (('.' : Char) == 't') = false := by decide
  have e2 : (('.' : Char) == 'e') = false := by decide
  have e3 : (('.' : Char) == 's') = false := by decide
  have e4 : (('.' : Char) == '_') = false := by decide
  simp [hasSub, List.isPrefixOf, e1, e2, e3, e4, hb]

theorem isSuffixOf_append_self (p x : Str) : p.isSuffixOf (x ++ p) = true := by
  show p.reverse.isPrefixOf (x ++ p).reverse = true
  rw [List.reverse_append]
  exact isPrefixOf_append_self p.reverse x.reverse

theorem takeWhile_append_all (p : Char → Bool) (l1 l2 : List Char)
    (h : ∀ x ∈ l1, p x = true) :
    (l1 ++ l2).takeWhile p = l1 ++ l2.takeWhile p := by
  induction l1 with
  | nil => rfl
  | cons a l ih =>
    rw [List.cons_append]
    rw [List.takeWhile_cons]
    rw [h a (List.mem_cons_self a l)]
    rw [ih (fun x hx => h x (List.mem_cons_of_mem a hx))]
    rfl

theorem baseName_concat (a b : Str) (hb : '/' ∉ b) : baseName (a ++ '/' :: b) = b := by
  unfold baseName
  rw [List.reverse_append, List.reverse_cons, List.append_assoc, List.singleton_append]
  rw [takeWhile_append_all _ b.reverse ('/' :: a.reverse) (fun x hx => by
    have hxb : x ∈ b := List.mem_reverse.mp hx
    have hxs : x ≠ '/' := fun he => hb (he ▸ hxb)
    simp [hxs])]
  rw [show (('/' :: a.reverse).takeWhile fun c => c != '/') = [] from rfl]
  rw [List.append_nil, List.reverse_reverse]

/-! ### Enumeration of clean paths (claim C2, amended) -/

theorem srcEntryId_clean (dir base cc : Str) (hsb : '/' ∉ base)
    (hpd : hasSub pyExt dir = false) (hpb : hasSub pyExt base = false)
    (hini : base ≠ "__init__".toList) :
    srcEntryId (srcRoot ++ (dir ++ '/' :: (base ++ pyExt)), cc)
      = some (dir ++ '/' :: base) := by
  have hslashPy : '/' ∉ pyExt := by rw [pyExt_chars]; decide
  have hfree1 : '/' ∉ base ++ pyExt := by
    intro hx
    rcases List.mem_append.mp hx with hx | hx
    · exact hsb hx
    · exact hslashPy hx
  have hdrop : (srcRoot ++ (dir ++ '/' :: (base ++ pyExt))).drop srcRoot.length
      = dir ++ '/' :: (base ++ pyExt) := List.drop_left srcRoot _
  have hbase : baseName (dir ++ '/' :: (base ++ pyExt)) = base ++ pyExt :=
    baseName_concat dir (base ++ pyExt) hfree1
  have hsuf : pyExt.isSuffixOf (base ++ pyExt) = true := isSuffixOf_append_self pyExt base
  have hneq : base ++ pyExt ≠ initMarker := by
    intro hx
    rw [initMarker_split] at hx
    exact hini (List.append_cancel_right hx)
  have hrepl : replaceAll pyExt [] (dir ++ '/' :: (base ++ pyExt)) = dir ++ '/' :: base := by
    rw [show dir ++ '/' :: (base ++ pyExt) = (dir ++ '/' :: base) ++ pyExt from by
      rw [List.append_assoc, List.cons_append]]
    exact replaceAll_strip_ext (dir ++ '/' :: base)
      (hasSub_append_sep pyExt dir base '/' hpd hpb hslashPy)
  unfold srcEntryId
  rw [if_pos (isPrefixOf_append_self srcRoot (dir ++ '/' :: (base ++ pyExt)))]
  dsimp only
  rw [hdrop, hbase]
  rw [if_pos ⟨hsuf, hneq⟩]
  rw [hrepl]

theorem srcEntryId_skips_tests (x cc : Str) :
    srcEntryId (testsRoot ++ x, cc) = none := by
  have hpre : srcRoot.isPrefixOf (testsRoot ++ x) = false := by
    rw [srcRoot_chars, testsRoot_chars]
    have e1 : (('s' : Char) == 't') = false := by decide
    simp [List.isPrefixOf, e1]
  unfold srcEntryId
  rw [if_neg (fun hc => absurd (hpre.symm.trans hc) (by decide))]

theorem testEntryId_clean (dir base cc : Str) (hsb : '/' ∉ base)
    (hpd : hasSub pyExt dir = false) (hpb : hasSub pyExt base = false)
    (htd : hasSub testTok dir = false) (htb : hasSub testTok base = false) :
    testEntryId (testsRoot ++ (dir ++ '/' :: (testTok ++ (base ++ pyExt))), cc)
      = some (dir ++ '/' :: base) := by
  have hslashPy : '/' ∉ pyExt := by rw [pyExt_chars]; decide
  have hslashTok : '/' ∉ testTok := by rw [testTok_chars]; decide
  have hTokNe : testTok ≠ [] := by rw [testTok_chars]; decide
  have hfree1 : '/' ∉ base ++ pyExt := by
    intro hx
    rcases List.mem_append.mp hx with hx | hx
    · exact hsb hx
    · exact hslashPy hx
  have hfree2 : '/' ∉ testTok ++ (base ++ pyExt) := by
    intro hx
    rcases List.mem_append.mp hx with hx | hx
    · exact hslashTok hx
    · exact hfree1 hx
  have hdrop : (testsRoot ++ (dir ++ '/' :: (testTok ++ (base ++ pyExt)))).drop testsRoot.length
      = dir ++ '/' :: (testTok ++ (base ++ pyExt)) := List.drop_left testsRoot _
  have hbase : baseName (dir ++ '/' :: (testTok ++ (base ++ pyExt)))
      = testTok ++ (base ++ pyExt) := baseName_concat dir (testTok ++ (base ++ pyExt)) hfree2
  have hpre : testTok.isPrefixOf (testTok ++ (base ++ pyExt)) = true :=
    isPrefixOf_append_self testTok (base ++ pyExt)
  have hsuf : pyExt.isSuffixOf (testTok ++ (base ++ pyExt)) = true := by
    rw [show testTok ++ (base ++ pyExt) = (testTok ++ base) ++ pyExt from
      (List.append_assoc testTok base pyExt).symm]
    exact isSuffixOf_append_self pyExt (testTok ++ base)
  have hinner : replaceAll pyExt [] (dir ++ '/' :: (testTok ++ (base ++ pyExt)))
      = dir ++ '/' :: (testTok ++ base) := by
    rw [show dir ++ '/' :: (testTok ++ (base ++ pyExt))
        = (dir ++ '/' :: (testTok ++ base)) ++ pyExt from by
      rw [List.append_assoc, List.cons_append, List.append_assoc]]
    exact replaceAll_strip_ext (dir ++ '/' :: (testTok ++ base))
      (hasSub_append_sep pyExt dir (testTok ++ base) '/' hpd
        (hasSub_ext_testTok_append base hpb) hslashPy)
  have houter : replaceAll testTok [] (dir ++ '/' :: (testTok ++ base))
      = dir ++ '/' :: base := by
    rw [replaceAll_append_sep testTok [] dir (testTok ++ base) '/' htd hslashTok hTokNe]
    rw [replaceAll_strip_lead testTok [] base hTokNe]
    rw [List.nil_append]
    rw [replaceAll_not_sub testTok [] base htb]
  unfold testEntryId
  rw [if_pos (isPrefixOf_append_self testsRoot (dir ++ '/' :: (testTok ++ (base ++ pyExt))))]
  dsimp only
  rw [hdrop, hbase]
  rw [if_pos ⟨hpre, hsuf⟩]
  rw [hinner, houter]

theorem testEntryId_skips_src (x cc : Str) :
    testEntryId (srcRoot ++ x, cc) = none := by
  have hpre : testsRoot.isPrefixOf (srcRoot ++ x) = false := by
    rw [srcRoot_chars, testsRoot_chars]
    have e1 : (('t' : Char) == 's') = false := by decide
    simp [List.isPrefixOf, e1]
  unfold testEntryId
  rw [if_neg (fun hc => absurd (hpre.symm.trans hc) (by decide))]

/-- Claim C2 as amended: both enumerations remove every occurrence of their
tokens anywhere in the relative path (left to right, non-overlapping), not
only the extension and the leading `test_` filename prefix; consequently the
two enumerations compute the same identifier `dir/base` for a solution file
and its generated test file whenever the directory part and the stem are free
of the substrings `test_` and `.py` (and the stem is not `__init__`), but can
disagree otherwise. -/
theorem c2_ids_agree_on_clean_paths (dir base c1 c2 : Str) (hsb : '/' ∉ base)
    (hpd : hasSub pyExt dir = false) (hpb : hasSub pyExt base = false)
    (htd : hasSub testTok dir = false) (htb : hasSub testTok base = false)
    (hini : base ≠ "__init__".toList) :
    get_src_files ⟨[(srcRoot ++ (dir ++ '/' :: (base ++ pyExt)), c1),
        (testsRoot ++ (dir ++ '/' :: (testTok ++ (base ++ pyExt))), c2)]⟩
      = [dir ++ '/' :: base]
    ∧ get_test_files ⟨[(srcRoot ++ (dir ++ '/' :: (base ++ pyExt)), c1),
        (testsRoot ++ (dir ++ '/' :: (testTok ++ (base ++ pyExt))), c2)]⟩
      = [dir ++ '/' :: base] := by
  constructor
  · show List.filterMap srcEntryId _ = _
    rw [List.filterMap_cons_some (srcEntryId_clean dir base c1 hsb hpd hpb hini)]
    rw [List.filterMap_cons_none
      (srcEntryId_skips_tests (dir ++ '/' :: (testTok ++ (base ++ pyExt))) c2)]
    rw [List.filterMap_nil]
  · show List.filterMap testEntryId _ = _
    rw [List.filterMap_cons_none (testEntryId_skips_src (dir ++ '/' :: (base ++ pyExt)) c1)]
    rw [List.filterMap_cons_some (testEntryId_clean dir base c2 hsb hpd hpb htd htb)]
    rw [List.filterMap_nil]

/-- Witness for the amended C2 at the repo's own solution
`arrays/has_duplicate`. -/
theorem c2_witness :
    get_src_files ⟨[(srcRoot ++ ("arrays".toList ++ '/' :: ("has_duplicate".toList ++ pyExt)), []),
        (testsRoot ++ ("arrays".toList ++ '/' :: (testTok ++ ("has_duplicate".toList ++ pyExt))), [])]⟩
      = ["arrays".toList ++ '/' :: "has_duplicate".toList]
    ∧ get_test_files ⟨[(srcRoot ++ ("arrays".toList ++ '/' :: ("has_duplicate".toList ++ pyExt)), []),
        (testsRoot ++ ("arrays".toList ++ '/' :: (testTok ++ ("has_duplicate".toList ++ pyExt))), [])]⟩
      = ["arrays".toList ++ '/' :: "has_duplicate".toList] :=
  c2_ids_agree_on_clean_paths "arrays".toList "has_duplicate".toList [] []
    (by decide) (by decide) (by decide) (by decide) (by decide) (by decide)

/-! ### The has_duplicate algorithm (claim C10) -/

theorem hdGo_eq_true_iff (l : List Int) :
    ∀ s, hdGo s l = true ↔ (¬ l.Nodup ∨ ∃ x ∈ l, x ∈ s) := by
  induction l with
  | nil => intro s; simp [hdGo]
  | cons i rest ih =>
    intro s
    by_cases hi : i ∈ s
    · rw [show hdGo s (i :: rest) = true from by simp [hdGo, hi]]
      constructor
      · intro _
        exact Or.inr ⟨i, List.mem_cons_self i rest, hi⟩
      · intro _
        rfl
    · rw [show hdGo s (i :: rest) = hdGo (i :: s) rest from by simp [hdGo, hi]]
      rw [ih (i :: s)]
      have hrw : (∃ x ∈ rest, x ∈ i :: s) ↔ (i ∈ rest ∨ ∃ x ∈ rest, x ∈ s) := by
        constructor
        · rintro ⟨x, hx, hxs⟩
          rcases List.mem_cons.mp hxs with h1 | h1
          · exact Or.inl (h1 ▸ hx)
          · exact Or.inr ⟨x, hx, h1⟩
        · rintro (h1 | ⟨x, hx, hxs⟩)
          · exact ⟨i, h1, List.mem_cons_self i s⟩
          · exact ⟨x, hx, List.mem_cons.mpr (Or.inr hxs)⟩
      rw [hrw]
      rw [List.nodup_cons]
      constructor
      · rintro (h1 | h1 | ⟨x, hx, hxs⟩)
        · exact Or.inl (fun hc => h1 hc.2)
        · exact Or.inl (fun hc => hc.1 h1)
        · exact Or.inr ⟨x, List.mem_cons.mpr (Or.inr hx), hxs⟩
      · rintro (h1 | ⟨x, hx, hxs⟩)
        · by_cases hir : i ∈ rest
          · exact Or.inr (Or.inl hir)
          · exact Or.inl (fun hnd => h1 ⟨hir, hnd⟩)
        · rcases List.mem_cons.mp hx with h2 | h2
          · rw [h2] at hxs
            exact absurd hxs hi
          · exact Or.inr (Or.inr ⟨x, h2, hxs⟩)

theorem has_duplicate_iff_not_nodup (nums : List Int) :
    has_duplicate nums = true ↔ ¬ nums.Nodup := by
  unfold has_duplicate
  rw [hdGo_eq_true_iff nums []]
  simp

/-- Claim C10: `has_duplicate(nums)` returns `True` exactly when some value
occurs at two distinct positions of `nums`, i.e. there are indices `i < j`
with `nums[i] = nums[j]`; equivalently it returns `False` exactly when the
elements are pairwise distinct. -/
theorem c10_has_duplicate_characterisation (nums : List Int) :
    has_duplicate nums = true
      ↔ ∃ i j : Fin nums.length, (i : Nat) < (j : Nat) ∧ nums.get i = nums.get j := by
  rw [has_duplicate_iff_not_nodup]
  rw [List.nodup_iff_injective_get]
  constructor
  · intro h
    rcases Function.not_injective_iff.mp h with ⟨a, b, heq, hne⟩
    have hv : (a : Nat) ≠ (b : Nat) := fun hvv => hne (Fin.ext hvv)
    rcases lt_or_gt_of_ne hv with h1 | h1
    · exact ⟨a, b, h1, heq⟩
    · exact ⟨b, a, h1, heq.symm⟩
  · rintro ⟨i, j, hij, heq⟩
    intro hinj
    have hEq : i = j := hinj heq
    rw [hEq] at hij
    exact Nat.lt_irrefl _ hij

/-- Witness for C10 at the spec scenario lists. -/
theorem c10_witness :
    (has_duplicate [1, 2, 3, 1] = true
      ↔ ∃ i j : Fin ([1, 2, 3, 1] : List Int).length,
          (i : Nat) < (j : Nat) ∧ ([1, 2, 3, 1] : List Int).get i = ([1, 2, 3, 1] : List Int).get j) :=
  c10_has_duplicate_characterisation [1, 2, 3, 1]

end NC150
